import Mathlib

/-!
Shallow embedding of the StoryBranch backend's story-graph validator and
publish/versioning lifecycle, translated from
`src/backend/src/services/choice.service.ts`,
`src/backend/src/services/story.service.ts` and the story-version service,
together with theorems settling the frozen claims about them.

Modelling conventions:
* Database rows become Lean structures; the relational `sourceChoices` /
  `targetChoices` includes of a Node are derived from the choice table by
  filtering on `sourceNodeId` / `targetNodeId`, exactly as the foreign keys
  define them.
* JavaScript truthiness is made explicit: a string is truthy iff non-empty,
  a number iff non-zero, `undefined`/`null` are falsy, objects and arrays
  are always truthy.
* Timestamps are opaque `Nat` values supplied by the caller (`new Date()`).
* Cosmetic fields that no service logic reads (layout coordinates,
  `createdAt`/`updatedAt`, generated row ids where unused) are omitted.
-/

namespace StoryBranch

/-- The `StoryStatus` enum from the Prisma schema. -/
inductive StoryStatus where
  | DRAFT
  | PUBLISHED
  | ARCHIVED
deriving DecidableEq, Repr

/-- The `Difficulty` enum from the Prisma schema. -/
inductive Difficulty where
  | EASY
  | MEDIUM
  | HARD
deriving DecidableEq, Repr

/-- The node `metadata` JSON blob as the validator reads it: the only key the
core interprets is `isStart`; `none` models the key being absent (or the
blob not being an object, which the source guards for). -/
structure NodeMetadata where
  isStart : Option Bool := none
deriving DecidableEq, Repr

/-- A story node row (layout coordinates are cosmetic and omitted). -/
structure Node where
  id : String
  storyId : String
  title : String
  content : String
  isEnding : Bool
  metadata : NodeMetadata
deriving DecidableEq, Repr

/-- A choice row: a directed edge of the story graph. `conditions` is an
opaque extension map the core never interprets. -/
structure Choice where
  id : String
  sourceNodeId : String
  targetNodeId : String
  text : String
  order : Int
  conditions : List (String × String)
deriving DecidableEq, Repr

/-- The source's start-node test:
`node.metadata && typeof node.metadata === 'object' && node.metadata.isStart === true`. -/
def isStartNode (n : Node) : Bool :=
  n.metadata.isStart == some true

/-- A node's relational `sourceChoices` include: all choices whose
`sourceNodeId` is the node's id. -/
def sourceChoicesOf (choices : List Choice) (nodeId : String) : List Choice :=
  choices.filter (fun c => c.sourceNodeId == nodeId)

/-- A node's relational `targetChoices` include: all choices whose
`targetNodeId` is the node's id. -/
def targetChoicesOf (choices : List Choice) (nodeId : String) : List Choice :=
  choices.filter (fun c => c.targetNodeId == nodeId)

/-- The body of the BFS inner `for` loop in `validateStoryStructure`: walk the
current node's `sourceChoices` in order and, for each target not yet in the
visited set, add it to the visited set and push it on the queue. -/
def enqueueTargets (reachable queue : List String) : List Choice → List String × List String
  | [] => (reachable, queue)
  | c :: cs =>
    if c.targetNodeId ∈ reachable then
      enqueueTargets reachable queue cs
    else
      enqueueTargets (reachable ++ [c.targetNodeId]) (queue ++ [c.targetNodeId]) cs

theorem enqueueTargets_spec (cs : List Choice) : ∀ reachable queue : List String,
    ∃ ns : List String,
      enqueueTargets reachable queue cs = (reachable ++ ns, queue ++ ns) ∧
      ns.Nodup ∧
      (∀ x ∈ ns, x ∉ reachable) ∧
      (∀ x ∈ ns, x ∈ cs.map Choice.targetNodeId) ∧
      (∀ c ∈ cs, c.targetNodeId ∈ reachable ++ ns) := by
  induction cs with
  | nil =>
    intro reachable queue
    exact ⟨[], by simp [enqueueTargets]⟩
  | cons c cs ih =>
    intro reachable queue
    by_cases h : c.targetNodeId ∈ reachable
    · obtain ⟨ns, h1, h2, h3, h4, h5⟩ := ih reachable queue
      refine ⟨ns, ?_, h2, h3, ?_, ?_⟩
      · simpa [enqueueTargets, h] using h1
      · intro x hx
        simpa using Or.inr (h4 x hx)
      · intro d hd
        rcases List.mem_cons.mp hd with rfl | hd
        · exact List.mem_append.mpr (Or.inl h)
        · exact h5 d hd
    · obtain ⟨ns, h1, h2, h3, h4, h5⟩ := ih (reachable ++ [c.targetNodeId]) (queue ++ [c.targetNodeId])
      refine ⟨c.targetNodeId :: ns, ?_, ?_, ?_, ?_, ?_⟩
      · have : enqueueTargets reachable queue (c :: cs) =
            enqueueTargets (reachable ++ [c.targetNodeId]) (queue ++ [c.targetNodeId]) cs := by
          simp [enqueueTargets, h]
        rw [this, h1]
        simp
      · refine List.nodup_cons.mpr ⟨?_, h2⟩
        intro hmem
        have := h3 _ hmem
        simp at this
      · intro x hx
        rcases List.mem_cons.mp hx with rfl | hx
        · exact h
        · intro hxr
          exact h3 x hx (List.mem_append.mpr (Or.inl hxr))
      · intro x hx
        rcases List.mem_cons.mp hx with rfl | hx
        · simp
        · simpa using Or.inr (h4 x hx)
      · intro d hd
        rcases List.mem_cons.mp hd with rfl | hd
        · simp
        · have := h5 d hd
          simp only [List.append_assoc, List.singleton_append] at this
          simpa using this

/-- Termination measure for the BFS worklist: how many distinct choice-target
ids are not yet in the visited set. -/
def unseenCount (choices : List Choice) (reachable : List String) : Nat :=
  ((choices.map Choice.targetNodeId).toFinset.filter (fun t => t ∉ reachable)).card

theorem unseenCount_append_le (choices : List Choice) (reachable ns : List String)
    (hnodup : ns.Nodup) (hfresh : ∀ x ∈ ns, x ∉ reachable)
    (hmem : ∀ x ∈ ns, x ∈ choices.map Choice.targetNodeId) :
    unseenCount choices (reachable ++ ns) + ns.length ≤ unseenCount choices reachable := by
  classical
  unfold unseenCount
  set U := (choices.map Choice.targetNodeId).toFinset with hU
  set A := U.filter (fun t => t ∉ reachable) with hA
  set B := U.filter (fun t => t ∉ reachable ++ ns) with hB
  have hBA : B ⊆ A := by
    intro x hx
    rw [hB, Finset.mem_filter] at hx
    rw [hA, Finset.mem_filter]
    exact ⟨hx.1, fun hr => hx.2 (List.mem_append.mpr (Or.inl hr))⟩
  have hsub : ns.toFinset ⊆ A \ B := by
    intro x hx
    rw [List.mem_toFinset] at hx
    rw [Finset.mem_sdiff]
    constructor
    · rw [hA, Finset.mem_filter]
      exact ⟨by rw [hU, List.mem_toFinset]; exact hmem x hx, hfresh x hx⟩
    · rw [hB, Finset.mem_filter]
      push_neg
      intro _
      exact List.mem_append.mpr (Or.inr hx)
  have hcard : ns.length ≤ (A \ B).card := by
    calc ns.length = ns.toFinset.card := (List.toFinset_card_of_nodup hnodup).symm
    _ ≤ (A \ B).card := Finset.card_le_card hsub
  have := Finset.card_sdiff_add_card_eq_card hBA
  omega

/-- The BFS `while` loop of `validateStoryStructure`: pop the front of the
queue, look the id up among the story's nodes, and enqueue the unvisited
targets of that node's outgoing choices. -/
def bfsAux (nodes : List Node) (choices : List Choice) (queue reachable : List String) :
    List String :=
  match queue with
  | [] => reachable
  | currentNodeId :: rest =>
    match nodes.find? (fun n => n.id == currentNodeId) with
    | none => bfsAux nodes choices rest reachable
    | some currentNode =>
      let p := enqueueTargets reachable rest (sourceChoicesOf choices currentNode.id)
      bfsAux nodes choices p.2 p.1
termination_by unseenCount choices reachable + queue.length
decreasing_by
  · simp only [List.length_cons]
    omega
  · obtain ⟨ns, h1, h2, h3, h4, _h5⟩ :=
      enqueueTargets_spec (sourceChoicesOf choices currentNode.id) reachable rest
    have hmem : ∀ x ∈ ns, x ∈ choices.map Choice.targetNodeId := by
      intro x hx
      have := h4 x hx
      rw [List.mem_map] at this ⊢
      obtain ⟨c, hc, rfl⟩ := this
      exact ⟨c, List.mem_of_mem_filter hc, rfl⟩
    have hdec := unseenCount_append_le choices reachable ns h2 h3 hmem
    simp only [p, h1, List.length_append, List.length_cons]
    omega

/-- Result record of `ChoiceService.validateStoryStructure` (field names as in
the object the source returns). -/
structure StructureValidation where
  isValid : Bool
  startNode : Bool
  endingNodes : Bool
  orphanedNodes : List String
  unreachableNodes : List String
  deadEnds : List String
deriving DecidableEq, Repr

/-- The `ChoiceService.validateStoryStructure`, as a pure function of the story's
node rows and the choice table (the source loads the nodes of the story with
their relational `sourceChoices`/`targetChoices` includes and then runs this
logic over them). -/
def validateStoryStructure (nodes : List Node) (choices : List Choice) :
    StructureValidation :=
  if nodes.length = 0 then
    { isValid := false, startNode := false, endingNodes := false,
      orphanedNodes := [], unreachableNodes := [], deadEnds := [] }
  else
    let startNode := nodes.find? isStartNode
    let hasStartNode := startNode.isSome
    let endingNodes := nodes.filter (fun n => n.isEnding)
    let hasEndingNodes := decide (0 < endingNodes.length)
    let orphanedNodes := (nodes.filter (fun n =>
      (targetChoicesOf choices n.id).length == 0 && !(isStartNode n))).map Node.id
    let reachableNodes :=
      match startNode with
      | some s => bfsAux nodes choices [s.id] [s.id]
      | none => []
    let unreachableNodes := (nodes.filter (fun n =>
      !(reachableNodes.contains n.id))).map Node.id
    let deadEnds := (nodes.filter (fun n =>
      !n.isEnding && (sourceChoicesOf choices n.id).length == 0)).map Node.id
    let isValid := hasStartNode && hasEndingNodes &&
      orphanedNodes.length == 0 && unreachableNodes.length == 0 &&
      deadEnds.length == 0
    { isValid := isValid, startNode := hasStartNode, endingNodes := hasEndingNodes,
      orphanedNodes := orphanedNodes, unreachableNodes := unreachableNodes,
      deadEnds := deadEnds }

theorem isEmpty_eq_length_beq_zero (l : List String) : l.isEmpty = (l.length == 0) := by
  cases l <;> rfl

/-- An edge the BFS can follow: the source id names a node of the story (the
loop only expands ids that `find?` resolves to a node) and some choice leads
from that id to the target id. -/
def ChoiceEdge (nodes : List Node) (choices : List Choice) (a b : String) : Prop :=
  (∃ n ∈ nodes, n.id = a) ∧ ∃ c ∈ choices, c.sourceNodeId = a ∧ c.targetNodeId = b

/-- Ids reachable from `s` along `ChoiceEdge` edges. -/
inductive ReachesFrom (nodes : List Node) (choices : List Choice) (s : String) :
    String → Prop where
  | refl : ReachesFrom nodes choices s s
  | step {a b : String} : ReachesFrom nodes choices s a →
      ChoiceEdge nodes choices a b → ReachesFrom nodes choices s b

theorem bfsAux_closed (nodes : List Node) (choices : List Choice) :
    ∀ queue reachable : List String,
    (∀ x ∈ queue, x ∈ reachable) →
    (∀ a ∈ reachable, a ∉ queue → ∀ b, ChoiceEdge nodes choices a b → b ∈ reachable) →
    reachable ⊆ bfsAux nodes choices queue reachable ∧
      (∀ a ∈ bfsAux nodes choices queue reachable, ∀ b, ChoiceEdge nodes choices a b →
        b ∈ bfsAux nodes choices queue reachable) := by
  intro queue reachable
  induction queue, reachable using bfsAux.induct nodes choices with
  | case1 reachable =>
    intro _ hclosed
    rw [bfsAux]
    exact ⟨Set.Subset.refl _, fun a ha b hedge => hclosed a ha (by simp) b hedge⟩
  | case2 reachable current rest hfind ih =>
    intro hqueue hclosed
    rw [bfsAux, hfind]
    apply ih
    · intro x hx
      exact hqueue x (List.mem_cons_of_mem _ hx)
    · intro a ha hrest b hedge
      by_cases hac : a = current
      · exfalso
        obtain ⟨⟨n, hn, hnid⟩, _⟩ := hedge
        have := List.find?_eq_none.mp hfind n hn
        simp only [beq_iff_eq] at this
        exact this (hnid.trans hac)
      · exact hclosed a ha (by simp [hac, hrest]) b hedge
  | case3 reachable current rest currentNode hfind p ih =>
    intro hqueue hclosed
    obtain ⟨ns, h1, _h2, _h3, _h4, h5⟩ :=
      enqueueTargets_spec (sourceChoicesOf choices currentNode.id) reachable rest
    have hcurid : currentNode.id = current := by
      have := List.find?_some hfind
      simpa [beq_iff_eq] using this
    have hp : p = enqueueTargets reachable rest (sourceChoicesOf choices currentNode.id) := rfl
    simp only [hp, h1] at ih
    rw [bfsAux, hfind]
    simp only [h1]
    have hinv1 : ∀ x ∈ rest ++ ns, x ∈ reachable ++ ns := by
      intro x hx
      rcases List.mem_append.mp hx with hx | hx
      · exact List.mem_append.mpr (Or.inl (hqueue x (List.mem_cons_of_mem _ hx)))
      · exact List.mem_append.mpr (Or.inr hx)
    have hinv2 : ∀ a ∈ reachable ++ ns, a ∉ rest ++ ns →
        ∀ b, ChoiceEdge nodes choices a b → b ∈ reachable ++ ns := by
      intro a ha hnq b hedge
      rcases List.mem_append.mp ha with ha | ha
      · by_cases hac : a = current
        · obtain ⟨_, c, hc, hsrc, htgt⟩ := hedge
          have hcmem : c ∈ sourceChoicesOf choices currentNode.id := by
            rw [sourceChoicesOf, List.mem_filter]
            exact ⟨hc, by simp [hsrc, hcurid, hac]⟩
          have := h5 c hcmem
          rw [htgt] at this
          exact this
        · have : a ∉ current :: rest := by
            simp only [List.mem_cons, not_or]
            exact ⟨hac, fun hr => hnq (List.mem_append.mpr (Or.inl hr))⟩
          exact List.mem_append.mpr
            (Or.inl (hclosed a ha this b hedge))
      · exact absurd (List.mem_append.mpr (Or.inr ha)) hnq
    obtain ⟨hsub, hcl⟩ := ih hinv1 hinv2
    refine ⟨?_, hcl⟩
    intro x hx
    exact hsub (List.mem_append.mpr (Or.inl hx))

theorem reaches_mem_bfs (nodes : List Node) (choices : List Choice) (s x : String)
    (h : ReachesFrom nodes choices s x) :
    x ∈ bfsAux nodes choices [s] [s] := by
  have key := bfsAux_closed nodes choices [s] [s]
    (by intro a ha; exact ha)
    (by
      intro a ha hq
      exact absurd ha hq)
  induction h with
  | refl => exact key.1 (by simp)
  | step _ hedge ih => exact key.2 _ ih _ hedge

theorem chain_reaches (nodes : List Node) (choices : List Choice) (s : String) :
    ∀ (a : String) (l : List String), ReachesFrom nodes choices s a →
    List.Chain (ChoiceEdge nodes choices) a l →
    ∀ x ∈ l, ReachesFrom nodes choices s x := by
  intro a l
  induction l generalizing a with
  | nil => intro _ _ x hx; simp at hx
  | cons b l ih =>
    intro hra hchain x hx
    rcases List.chain_cons.mp hchain with ⟨hab, hchain'⟩
    have hrb : ReachesFrom nodes choices s b := ReachesFrom.step hra hab
    rcases List.mem_cons.mp hx with rfl | hx
    · exact hrb
    · exact ih b hrb hchain' x hx

/-- C3: if the choice graph contains a cycle `c :: rest` (each consecutive
pair, and the last id back to `c`, joined by a choice edge between nodes of
the story) whose entry `c` is reachable from the start node, then the BFS of
`validateStoryStructure` — a total, visited-set-guarded traversal — reports
no node of that cycle as unreachable. -/
theorem cycle_nodes_not_unreachable (nodes : List Node) (choices : List Choice)
    (s : Node) (c : String) (rest : List String)
    (hs : nodes.find? isStartNode = some s)
    (hchain : List.Chain (ChoiceEdge nodes choices) c (rest ++ [c]))
    (hreach : ReachesFrom nodes choices s.id c) :
    ∀ x ∈ c :: rest, x ∉ (validateStoryStructure nodes choices).unreachableNodes := by
  intro x hx hmem
  have hne : ¬ (nodes.length = 0) := by
    intro h0
    rw [List.length_eq_zero] at h0
    subst h0
    simp [List.find?] at hs
  have hreachx : ReachesFrom nodes choices s.id x := by
    rcases List.mem_cons.mp hx with rfl | hx
    · exact hreach
    · exact chain_reaches nodes choices s.id c (rest ++ [c]) hreach hchain x
        (List.mem_append.mpr (Or.inl hx))
  have hbfs := reaches_mem_bfs nodes choices s.id x hreachx
  unfold validateStoryStructure at hmem
  rw [if_neg hne] at hmem
  simp only [hs] at hmem
  rw [List.mem_map] at hmem
  obtain ⟨n, hn, hnid⟩ := hmem
  have hfilt := List.of_mem_filter hn
  rw [Bool.not_eq_true'] at hfilt
  have : n.id ∈ bfsAux nodes choices [s.id] [s.id] := by
    rw [hnid]
    exact hbfs
  rw [← List.elem_iff] at this
  rw [List.contains] at hfilt
  rw [hfilt] at this
  exact Bool.false_ne_true this

/-- Fixture: start node `A` leading into the two-node cycle `B ⇄ C`. -/
def cycNodeA : Node :=
  { id := "A", storyId := "s1", title := "A", content := "", isEnding := false,
    metadata := { isStart := some true } }

def cycNodeB : Node :=
  { id := "B", storyId := "s1", title := "B", content := "", isEnding := false,
    metadata := {} }

def cycNodeC : Node :=
  { id := "C", storyId := "s1", title := "C", content := "", isEnding := true,
    metadata := {} }

def cycChoiceAB : Choice :=
  { id := "e1", sourceNodeId := "A", targetNodeId := "B", text := "go", order := 0,
    conditions := [] }

def cycChoiceBC : Choice :=
  { id := "e2", sourceNodeId := "B", targetNodeId := "C", text := "go", order := 0,
    conditions := [] }

def cycChoiceCB : Choice :=
  { id := "e3", sourceNodeId := "C", targetNodeId := "B", text := "go", order := 0,
    conditions := [] }

def cycNodes : List Node := [cycNodeA, cycNodeB, cycNodeC]

def cycChoices : List Choice := [cycChoiceAB, cycChoiceBC, cycChoiceCB]

theorem cycle_nodes_not_unreachable_witness :
    "B" ∉ (validateStoryStructure cycNodes cycChoices).unreachableNodes ∧
    "C" ∉ (validateStoryStructure cycNodes cycChoices).unreachableNodes := by
  have hedgeAB : ChoiceEdge cycNodes cycChoices "A" "B" :=
    ⟨⟨cycNodeA, by simp [cycNodes], rfl⟩, cycChoiceAB, by simp [cycChoices], rfl, rfl⟩
  have hedgeBC : ChoiceEdge cycNodes cycChoices "B" "C" :=
    ⟨⟨cycNodeB, by simp [cycNodes], rfl⟩, cycChoiceBC, by simp [cycChoices], rfl, rfl⟩
  have hedgeCB : ChoiceEdge cycNodes cycChoices "C" "B" :=
    ⟨⟨cycNodeC, by simp [cycNodes], rfl⟩, cycChoiceCB, by simp [cycChoices], rfl, rfl⟩
  have hreach : ReachesFrom cycNodes cycChoices cycNodeA.id "B" :=
    ReachesFrom.step (ReachesFrom.refl) hedgeAB
  have hchain : List.Chain (ChoiceEdge cycNodes cycChoices) "B" (["C"] ++ ["B"]) :=
    List.Chain.cons hedgeBC (List.Chain.cons hedgeCB List.Chain.nil)
  have h := cycle_nodes_not_unreachable cycNodes cycChoices cycNodeA "B" ["C"]
    (by rfl) hchain hreach
  exact ⟨h "B" (by simp), h "C" (by simp)⟩

/-- The `AppError` from the error middleware: a message and an HTTP status code. -/
structure AppError where
  message : String
  status : Nat
deriving DecidableEq, Repr

/-- The story `metadata` JSON blob as the services read it: the three keys the
core interprets, plus the remaining free-form entries, which every spread
(`...metadata`) carries along unchanged. -/
structure StoryMetadata where
  currentVersion : Option Int := none
  isEditingNewVersion : Option Bool := none
  draftVersion : Option Int := none
  extra : List (String × String) := []
deriving DecidableEq, Repr

/-- A story row. -/
structure Story where
  id : String
  authorId : String
  title : String
  description : String
  coverImageUrl : Option String
  genres : List String
  difficulty : Difficulty
  status : StoryStatus
  metadata : StoryMetadata
  publishedAt : Option Nat
deriving DecidableEq, Repr

/-- One node of a snapshot: the node row together with its outgoing choices,
as `createStorySnapshot` includes them. -/
structure NodeSnapshot where
  node : Node
  sourceChoices : List Choice
deriving DecidableEq, Repr

/-- The deep copy `createStorySnapshot` takes of a story, its nodes and their
outgoing choices (the `JSON.parse(JSON.stringify(...))` round-trip is the
identity on this structured data). -/
structure Snapshot where
  story : Story
  nodes : List NodeSnapshot
deriving DecidableEq, Repr

/-- A story-version row (the generated row id is unused by the core logic and
omitted). -/
structure StoryVersion where
  storyId : String
  versionNumber : Int
  snapshot : Snapshot
  publishedAt : Nat
  notes : Option String
deriving DecidableEq, Repr

/-- The relevant database tables. -/
structure DB where
  stories : List Story
  nodes : List Node
  choices : List Choice
  versions : List StoryVersion
deriving DecidableEq, Repr

/-- JS truthiness of an optional string (`undefined` and `""` are falsy). -/
def truthyStr : Option String → Bool
  | some s => s != ""
  | none => false

/-- JS truthiness of an optional number (`undefined` and `0` are falsy). -/
def truthyInt : Option Int → Bool
  | some n => n != 0
  | none => false

/-- JS truthiness of an optional boolean. -/
def truthyBool : Option Bool → Bool
  | some b => b
  | none => false

/-- A hex digit as matched by the id regex `[0-9a-f]` with the `i` flag. -/
def isUuidHexDigit (c : Char) : Bool :=
  (decide ('0' ≤ c) && decide (c ≤ '9')) ||
  (decide ('a' ≤ c) && decide (c ≤ 'f')) ||
  (decide ('A' ≤ c) && decide (c ≤ 'F'))

/-- Split a character list on the dash separator (the semantics of
`splitOn "-"` on the id's characters). -/
def splitOnDash (cs : List Char) : List (List Char) :=
  match cs with
  | [] => [[]]
  | c :: rest =>
    if c = '-' then [] :: splitOnDash rest
    else
      match splitOnDash rest with
      | [] => [[c]]
      | g :: gs => (c :: g) :: gs

/-- The UUID-shape regex `getStoryById` guards ids with:
`/^[0-9a-f]{8}-[0-9a-f]{4}-[0-9a-f]{4}-[0-9a-f]{4}-[0-9a-f]{12}$/i`:
five dash-separated hex groups of lengths 8, 4, 4, 4 and 12. -/
def isUuidFormat (s : String) : Bool :=
  match splitOnDash s.toList with
  | [a, b, c, d, e] =>
    a.length == 8 && b.length == 4 && c.length == 4 && d.length == 4 &&
    e.length == 12 &&
    (a ++ b ++ c ++ d ++ e).all isUuidHexDigit
  | _ => false

/-- The `StoryService.getStoryById`: rejects malformed ids with a 400, then looks
the story up, 404 when absent. -/
def getStoryById (db : DB) (id : String) : Except AppError Story :=
  if !(isUuidFormat id) then
    .error { message := "Invalid story ID format", status := 400 }
  else
    match db.stories.find? (fun s => s.id == id) with
    | none => .error { message := "Story not found", status := 404 }
    | some s => .ok s

/-- The `prisma.story.update` on the story table: replace the row carrying the
given id. -/
def updateStoryRow (stories : List Story) (id : String) (s : Story) : List Story :=
  stories.map (fun t => if t.id == id then s else t)

/-- One step of `findFirst` with `orderBy versionNumber desc`: keep whichever
of the two rows has the greater version number (the earlier row on ties). -/
def pickLatest (acc : Option StoryVersion) (v : StoryVersion) : Option StoryVersion :=
  match acc with
  | none => some v
  | some a => if v.versionNumber > a.versionNumber then some v else some a

/-- The row with the greatest `versionNumber` in a list of version rows. -/
def latestOf (vs : List StoryVersion) : Option StoryVersion :=
  vs.foldl pickLatest none

/-- The `StoryVersionService.getLatestVersion`: the story's version row with the
highest version number, or `none` when the story has no versions. -/
def getLatestVersion (db : DB) (storyId : String) : Option StoryVersion :=
  latestOf (db.versions.filter (fun v => v.storyId == storyId))

/-- The `StoryVersionService.getStoryVersion`: first row matching the story id and
version number, 404 when absent. -/
def StoryVersionService.getStoryVersion (db : DB) (storyId : String)
    (versionNumber : Int) : Except AppError StoryVersion :=
  match db.versions.find? (fun v =>
      v.storyId == storyId && v.versionNumber == versionNumber) with
  | none => .error { message := "Version " ++ toString versionNumber ++
      " not found for story " ++ storyId, status := 404 }
  | some v => .ok v

/-- The `StoryService.createStorySnapshot`: deep copy of the story, its nodes and
each node's outgoing choices. -/
def createStorySnapshot (db : DB) (id : String) : Except AppError Snapshot :=
  match db.stories.find? (fun s => s.id == id) with
  | none => .error { message := "Story not found", status := 404 }
  | some story =>
    .ok { story := story,
          nodes := (db.nodes.filter (fun n => n.storyId == id)).map (fun n =>
            { node := n, sourceChoices := sourceChoicesOf db.choices n.id }) }

/-- Result record of `StoryService.validateStoryForPublishing`. -/
structure PublishValidation where
  isValid : Bool
  validationResult : StructureValidation
  message : Option String
deriving DecidableEq, Repr

/-- The `StoryService.validateStoryForPublishing`: runs the structure validator on
the story's nodes and, on failure, assembles the message enumerating every
failed check. -/
def validateStoryForPublishing (db : DB) (id : String) :
    Except AppError PublishValidation :=
  match getStoryById db id with
  | .error e => .error e
  | .ok _ =>
    let validationResult :=
      validateStoryStructure (db.nodes.filter (fun n => n.storyId == id)) db.choices
    if !validationResult.isValid then
      let m0 := "Story structure validation failed:"
      let m1 := if !validationResult.startNode then m0 ++ " Missing start node." else m0
      let m2 := if !validationResult.endingNodes then m1 ++ " Missing ending nodes." else m1
      let m3 := if validationResult.orphanedNodes.length > 0 then
          m2 ++ " Found " ++ toString validationResult.orphanedNodes.length ++
            " orphaned nodes."
        else m2
      let m4 := if validationResult.unreachableNodes.length > 0 then
          m3 ++ " Found " ++ toString validationResult.unreachableNodes.length ++
            " unreachable nodes."
        else m3
      let m5 := if validationResult.deadEnds.length > 0 then
          m4 ++ " Found " ++ toString validationResult.deadEnds.length ++ " dead ends."
        else m4
      .ok { isValid := false, validationResult := validationResult, message := some m5 }
    else
      .ok { isValid := true, validationResult := validationResult, message := none }

/-- The `UpdateStoryData` from `story.types.ts`; `none` models an absent field. -/
structure UpdateStoryData where
  title : Option String := none
  description : Option String := none
  coverImageUrl : Option String := none
  genres : Option (List String) := none
  difficulty : Option Difficulty := none
  status : Option StoryStatus := none
  metadata : Option StoryMetadata := none
deriving DecidableEq, Repr

/-- The `metadata.currentVersion || 1`. -/
def currentVersionOr1 (m : StoryMetadata) : Int :=
  match m.currentVersion with
  | some n => if n != 0 then n else 1
  | none => 1

/-- The spread guard `...(data.field && { field: data.field })` for a string
field: apply the optional value only when it is JS-truthy. -/
def applyTruthyStr (old : String) : Option String → String
  | some s => if s != "" then s else old
  | none => old

/-- The branch condition of `updateStory` on a published story, with JS
truthiness spelled out:
`data.title || data.description || data.coverImageUrl !== undefined || data.genres || data.difficulty`
(arrays and enum values are always truthy when present; strings only when
non-empty). -/
def contentTriggers (data : UpdateStoryData) : Bool :=
  truthyStr data.title || truthyStr data.description || data.coverImageUrl.isSome ||
    data.genres.isSome || data.difficulty.isSome

/-- The guarded field updates both `updateStory` branches share. -/
def applyContentFields (story : Story) (data : UpdateStoryData) : Story :=
  { story with
    title := applyTruthyStr story.title data.title,
    description := applyTruthyStr story.description data.description,
    coverImageUrl := match data.coverImageUrl with
      | some u => some u
      | none => story.coverImageUrl,
    genres := data.genres.getD story.genres,
    difficulty := data.difficulty.getD story.difficulty }

/-- The `StoryService.updateStory`: on a published story whose update touches
narrative content, drop back to DRAFT with the editing-overlay metadata;
otherwise apply a regular guarded update. -/
def updateStory (db : DB) (id : String) (data : UpdateStoryData) :
    DB × Except AppError Story :=
  match getStoryById db id with
  | .error e => (db, .error e)
  | .ok story =>
    if story.status == StoryStatus.PUBLISHED && contentTriggers data then
      let currentVersion := currentVersionOr1 story.metadata
      let updatedMetadata := { story.metadata with
        isEditingNewVersion := some true,
        draftVersion := some (currentVersion + 1) }
      let updatedStory := { applyContentFields story data with
        status := StoryStatus.DRAFT,
        metadata := updatedMetadata }
      ({ db with stories := updateStoryRow db.stories id updatedStory },
        .ok updatedStory)
    else
      let updatedStory := { applyContentFields story data with
        status := data.status.getD story.status,
        metadata := data.metadata.getD story.metadata }
      ({ db with stories := updateStoryRow db.stories id updatedStory },
        .ok updatedStory)

/-- The `StoryService.publishStory`. `now` models `new Date()`. `txFails` injects
a storage failure inside the `prisma.$transaction` block: the code performs
the story update and the version insert inside one transaction, whose
contract rolls both back on any failure, the `catch` then surfacing a 500
`AppError` with the database untouched. -/
def publishStory (db : DB) (now : Nat) (txFails : Bool) (id : String) :
    DB × Except AppError Story :=
  match getStoryById db id with
  | .error e => (db, .error e)
  | .ok story =>
    if story.status == StoryStatus.PUBLISHED then
      (db, .error { message := "Story is already published", status := 400 })
    else
      match validateStoryForPublishing db id with
      | .error e => (db, .error e)
      | .ok validation =>
        if !validation.isValid then
          let m := validation.message.getD "Story structure validation failed"
          (db, .error { message := m, status := 400 })
        else
          match createStorySnapshot db id with
          | .error _ => (db, .error { message := "Failed to publish story", status := 500 })
          | .ok snapshot =>
            let latestVersion := getLatestVersion db id
            let versionNumber : Int := match latestVersion with
              | some v => v.versionNumber + 1
              | none => 1
            if txFails then
              (db, .error { message := "Failed to publish story", status := 500 })
            else
              let publishedStory := { story with
                status := StoryStatus.PUBLISHED,
                publishedAt := some now,
                metadata := { story.metadata with currentVersion := some versionNumber } }
              let newVersion : StoryVersion := {
                storyId := id,
                versionNumber := versionNumber,
                snapshot := snapshot,
                publishedAt := now,
                notes := some ("Initial publication of \"" ++ story.title ++ "\"") }
              ({ db with
                  stories := updateStoryRow db.stories id publishedStory,
                  versions := db.versions ++ [newVersion] },
                .ok publishedStory)

/-- The `metadata.draftVersion || (metadata.currentVersion + 1)`. The result is
`none` when both fields are absent, modelling the non-numeric (`NaN`) value
the JS expression produces there; the storage layer rejects it inside the
transaction, which then rolls back. -/
def nextVersionFromMetadata (m : StoryMetadata) : Option Int :=
  match m.draftVersion with
  | some d => if d != 0 then some d else m.currentVersion.map (· + 1)
  | none => m.currentVersion.map (· + 1)

/-- The `StoryService.publishNewVersion`, with the same transaction modelling as
`publishStory`. -/
def publishNewVersion (db : DB) (now : Nat) (txFails : Bool) (id : String)
    (notes : Option String) : DB × Except AppError Story :=
  match getStoryById db id with
  | .error e => (db, .error e)
  | .ok story =>
    if !(story.status == StoryStatus.DRAFT) ||
        !(truthyBool story.metadata.isEditingNewVersion) then
      (db, .error { message := "Story must be a draft of a new version to publish as a new version", status := 400 })
    else
      match validateStoryForPublishing db id with
      | .error e => (db, .error e)
      | .ok validation =>
        if !validation.isValid then
          let m := validation.message.getD "Story structure validation failed"
          (db, .error { message := m, status := 400 })
        else
          match createStorySnapshot db id with
          | .error _ =>
            (db, .error { message := "Failed to publish new story version", status := 500 })
          | .ok snapshot =>
            match nextVersionFromMetadata story.metadata with
            | none =>
              (db, .error { message := "Failed to publish new story version", status := 500 })
            | some versionNumber =>
              if txFails then
                (db, .error { message := "Failed to publish new story version", status := 500 })
              else
                let updatedMetadata := { story.metadata with
                  currentVersion := some versionNumber,
                  isEditingNewVersion := some false,
                  draftVersion := none }
                let publishedStory := { story with
                  status := StoryStatus.PUBLISHED,
                  publishedAt := some now,
                  metadata := updatedMetadata }
                let newVersion : StoryVersion := {
                  storyId := id,
                  versionNumber := versionNumber,
                  snapshot := snapshot,
                  publishedAt := now,
                  notes := some (applyTruthyStr
                    ("Version " ++ toString versionNumber ++ " of \"" ++ story.title ++ "\"")
                    notes) }
                ({ db with
                    stories := updateStoryRow db.stories id publishedStory,
                    versions := db.versions ++ [newVersion] },
                  .ok publishedStory)

/-- The `StoryService.getStoryVersion`: checks the story exists, then returns the
requested version's snapshot. -/
def StoryService.getStoryVersion (db : DB) (id : String) (versionNumber : Int) :
    Except AppError Snapshot :=
  match getStoryById db id with
  | .error e => .error e
  | .ok _ =>
    match StoryVersionService.getStoryVersion db id versionNumber with
    | .error e => .error e
    | .ok version => .ok version.snapshot

/-- The `StoryService.archiveStory`. -/
def archiveStory (db : DB) (id : String) : DB × Except AppError Story :=
  match getStoryById db id with
  | .error e => (db, .error e)
  | .ok story =>
    let archivedStory := { story with status := StoryStatus.ARCHIVED }
    ({ db with stories := updateStoryRow db.stories id archivedStory },
      .ok archivedStory)

/-- The `CreateChoiceData` from `choice.types.ts`. -/
structure CreateChoiceData where
  sourceNodeId : String
  targetNodeId : String
  text : String
  order : Option Int := none
  conditions : Option (List (String × String)) := none
deriving DecidableEq, Repr

/-- One step of `findFirst` with `orderBy order desc`: keep whichever of the
two choice rows has the greater `order` (the earlier row on ties). -/
def pickHighest (acc : Option Choice) (c : Choice) : Option Choice :=
  match acc with
  | none => some c
  | some a => if c.order > a.order then some c else some a

/-- The `prisma.choice.findFirst` with `orderBy order desc` over one source node's
choices: the row with the greatest `order` (the earlier row on ties). -/
def highestOrderChoiceOf (choices : List Choice) (sourceNodeId : String) :
    Option Choice :=
  (choices.filter (fun c => c.sourceNodeId == sourceNodeId)).foldl pickHighest none

/-- The `ChoiceService.createChoice`; `newId` models the generated row id. The
stored order is `data.order || (highestOrderChoice ? highestOrderChoice.order + 1 : 0)`,
so a falsy supplied order (absent or `0`) falls back to the computed default. -/
def createChoice (db : DB) (newId : String) (data : CreateChoiceData) :
    DB × Except AppError Choice :=
  let highestOrderChoice := highestOrderChoiceOf db.choices data.sourceNodeId
  let defaultOrder : Int := match highestOrderChoice with
    | some h => h.order + 1
    | none => 0
  let order : Int := match data.order with
    | some o => if o != 0 then o else defaultOrder
    | none => defaultOrder
  let choice : Choice := {
    id := newId,
    sourceNodeId := data.sourceNodeId,
    targetNodeId := data.targetNodeId,
    text := data.text,
    order := order,
    conditions := data.conditions.getD [] }
  ({ db with choices := db.choices ++ [choice] }, .ok choice)

theorem truthyBool_eq_true (x : Option Bool) : truthyBool x = true ↔ x = some true := by
  cases x with
  | none => simp [truthyBool]
  | some b => cases b <;> simp [truthyBool]

theorem getStoryById_ok (db : DB) (id : String) (story : Story)
    (h : getStoryById db id = .ok story) :
    isUuidFormat id = true ∧ db.stories.find? (fun s => s.id == id) = some story := by
  unfold getStoryById at h
  split at h
  · exact absurd h (by simp)
  · constructor
    · rename_i hu
      simpa using hu
    · split at h
      · exact absurd h (by simp)
      · rename_i hf
        rw [hf]
        simpa using h

/-- C2: every `publishStory` and `publishNewVersion` call is atomic over the
story and version tables: either the call fails and the database is exactly
as before (no partial state survives any mid-transaction failure, including
the injected one), or it succeeds and the story-row update and the appended
version row are committed together, the story left PUBLISHED with
`metadata.currentVersion` equal to the number of the version row created. -/
theorem publish_atomicity (db : DB) (now : Nat) (txFails : Bool) (id : String)
    (notes : Option String) :
    (((publishStory db now txFails id).1 = db ∧
        ∃ e, (publishStory db now txFails id).2 = Except.error e) ∨
      (∃ v s, (publishStory db now txFails id).2 = Except.ok s ∧
        (publishStory db now txFails id).1.versions = db.versions ++ [v] ∧
        v.storyId = id ∧ s.status = StoryStatus.PUBLISHED ∧
        s.metadata.currentVersion = some v.versionNumber ∧
        (publishStory db now txFails id).1.stories = updateStoryRow db.stories id s)) ∧
    (((publishNewVersion db now txFails id notes).1 = db ∧
        ∃ e, (publishNewVersion db now txFails id notes).2 = Except.error e) ∨
      (∃ v s, (publishNewVersion db now txFails id notes).2 = Except.ok s ∧
        (publishNewVersion db now txFails id notes).1.versions = db.versions ++ [v] ∧
        v.storyId = id ∧ s.status = StoryStatus.PUBLISHED ∧
        s.metadata.currentVersion = some v.versionNumber ∧
        (publishNewVersion db now txFails id notes).1.stories =
          updateStoryRow db.stories id s)) := by
  constructor
  · unfold publishStory
    repeat' split
    all_goals try exact Or.inl ⟨rfl, _, rfl⟩
    right
    exact ⟨_, _, rfl, rfl, rfl, rfl, rfl, rfl⟩
  · unfold publishNewVersion
    repeat' split
    all_goals try exact Or.inl ⟨rfl, _, rfl⟩
    right
    exact ⟨_, _, rfl, rfl, rfl, rfl, rfl, rfl⟩

/-- C4: `publishStory` on a story already in status PUBLISHED fails with the
conflict error and leaves the database untouched, and `publishNewVersion` on
a story that is not (DRAFT with `metadata.isEditingNewVersion === true`)
fails with its conflict error and leaves the database untouched. -/
theorem invalid_transitions_conflict (db : DB) (now : Nat) (txFails : Bool)
    (id : String) (notes : Option String) (story : Story)
    (h1 : getStoryById db id = .ok story) :
    (story.status = StoryStatus.PUBLISHED →
      publishStory db now txFails id =
        (db, .error { message := "Story is already published", status := 400 })) ∧
    (¬ (story.status = StoryStatus.DRAFT ∧
          story.metadata.isEditingNewVersion = some true) →
      publishNewVersion db now txFails id notes =
        (db, .error { message := "Story must be a draft of a new version to publish as a new version", status := 400 })) := by
  constructor
  · intro h2
    simp [publishStory, h1, h2]
  · intro h2
    have hcond : (!(story.status == StoryStatus.DRAFT) ||
        !(truthyBool story.metadata.isEditingNewVersion)) = true := by
      by_cases hd : story.status = StoryStatus.DRAFT
      · have hne : ¬ story.metadata.isEditingNewVersion = some true := fun hb => h2 ⟨hd, hb⟩
        have hf : truthyBool story.metadata.isEditingNewVersion = false := by
          rw [Bool.eq_false_iff]
          intro ht
          exact hne ((truthyBool_eq_true _).mp ht)
        simp [hf]
      · simp [hd]
    simp only [publishNewVersion, h1]
    rw [if_pos (by simpa using hcond)]

/-- A well-formed story id (matches the UUID regex). -/
def fixId : String := "00000000-0000-0000-0000-000000000001"

/-- Fixture: a story in status PUBLISHED with one published version number. -/
def pubStory : Story :=
  { id := fixId, authorId := "a1", title := "T", description := "D",
    coverImageUrl := none, genres := ["fantasy"], difficulty := Difficulty.MEDIUM,
    status := StoryStatus.PUBLISHED,
    metadata := { currentVersion := some 1 }, publishedAt := some 10 }

def pubDb : DB := { stories := [pubStory], nodes := [], choices := [], versions := [] }

theorem invalid_transitions_conflict_witness :
    publishStory pubDb 0 false fixId =
      (pubDb, .error { message := "Story is already published", status := 400 }) ∧
    publishNewVersion pubDb 0 false fixId none =
      (pubDb, .error { message := "Story must be a draft of a new version to publish as a new version", status := 400 }) := by
  have h := invalid_transitions_conflict pubDb 0 false fixId none pubStory (by rfl)
  exact ⟨h.1 rfl, h.2 (by decide)⟩

/-- Fixture: the same story in status ARCHIVED. -/
def archStory : Story :=
  { id := fixId, authorId := "a1", title := "T", description := "D",
    coverImageUrl := none, genres := ["fantasy"], difficulty := Difficulty.MEDIUM,
    status := StoryStatus.ARCHIVED,
    metadata := { currentVersion := some 1 }, publishedAt := some 10 }

def archDb : DB := { stories := [archStory], nodes := [], choices := [], versions := [] }

/-- C5 counterexample: ARCHIVED is not terminal in the code — `updateStory`
with an explicit `status` field moves an ARCHIVED story straight to DRAFT
(and `publishStory` likewise accepts an archived story, guarding only
against PUBLISHED). -/
theorem archived_terminal_cex :
    archStory.status = StoryStatus.ARCHIVED ∧
    (updateStory archDb fixId { status := some StoryStatus.DRAFT }).2 =
      .ok { archStory with status := StoryStatus.DRAFT } ∧
    StoryStatus.DRAFT ≠ StoryStatus.ARCHIVED := by
  exact ⟨rfl, rfl, by decide⟩

/-- C5 amended: an ARCHIVED story cannot leave ARCHIVED through
`publishNewVersion` (rejected with the conflict error, database untouched),
through `archiveStory`, or through an `updateStory` call that does not
supply a `status` field; but `publishStory` on a structurally valid archived
story and `updateStory` with an explicit `status` do move it out of
ARCHIVED, so ARCHIVED is not terminal over the full operation set. -/
theorem archived_terminal_amended (db : DB) (now : Nat) (txFails : Bool)
    (id : String) (notes : Option String) (data : UpdateStoryData) (story : Story)
    (h1 : getStoryById db id = .ok story)
    (h2 : story.status = StoryStatus.ARCHIVED)
    (h3 : data.status = none) :
    publishNewVersion db now txFails id notes =
      (db, .error { message := "Story must be a draft of a new version to publish as a new version", status := 400 }) ∧
    (∃ s, (archiveStory db id).2 = .ok s ∧ s.status = StoryStatus.ARCHIVED) ∧
    (∃ s, (updateStory db id data).2 = .ok s ∧ s.status = StoryStatus.ARCHIVED) := by
  refine ⟨?_, ?_, ?_⟩
  · simp [publishNewVersion, h1, h2]
  · simp only [archiveStory, h1]
    exact ⟨_, rfl, rfl⟩
  · have hcond : (story.status == StoryStatus.PUBLISHED && contentTriggers data) = false := by
      rw [h2]
      rfl
    simp only [updateStory, h1, hcond, Bool.false_eq_true, if_false]
    exact ⟨_, rfl, by simp [h3, h2]⟩

theorem archived_terminal_amended_witness :
    publishNewVersion archDb 0 false fixId none =
      (archDb, .error { message := "Story must be a draft of a new version to publish as a new version", status := 400 }) ∧
    (∃ s, (archiveStory archDb fixId).2 = .ok s ∧ s.status = StoryStatus.ARCHIVED) ∧
    (∃ s, (updateStory archDb fixId {}).2 = .ok s ∧ s.status = StoryStatus.ARCHIVED) :=
  archived_terminal_amended archDb 0 false fixId none {} archStory (by rfl) rfl rfl

/-- C6 counterexample: on a PUBLISHED story, an update that supplies the
`title` field as the empty string (JS-falsy) does not trigger the
draft-for-new-version transition: the story comes back unchanged, still
PUBLISHED and with no editing-overlay metadata, though the claim requires
the transition for every update supplying `title`. -/
theorem published_edit_transition_cex :
    pubStory.status = StoryStatus.PUBLISHED ∧
    ({ title := some "" : UpdateStoryData }).title.isSome = true ∧
    (updateStory pubDb fixId { title := some "" }).2 = .ok pubStory ∧
    pubStory.metadata.isEditingNewVersion = none ∧
    pubStory.metadata.draftVersion = none := by
  exact ⟨rfl, rfl, rfl, rfl, rfl⟩

/-- C6 amended: on a PUBLISHED story, `updateStory` triggers the
draft-for-new-version transition exactly when the payload is content-truthy
(non-empty `title` or `description`, or any supplied `coverImageUrl`,
`genres` or `difficulty`): then the status becomes DRAFT,
`metadata.isEditingNewVersion` is set to true and `metadata.draftVersion` to
(`metadata.currentVersion`, read as 1 when absent or 0) + 1. Otherwise the
regular update runs: the status is the supplied one (defaulting to
PUBLISHED) and the metadata the supplied one (defaulting to the old map),
with no overlay fields set by the operation itself. -/
theorem updateStory_published_transition (db : DB) (id : String)
    (data : UpdateStoryData) (story : Story)
    (h1 : getStoryById db id = .ok story)
    (h2 : story.status = StoryStatus.PUBLISHED) :
    (contentTriggers data = true →
      ∃ s, (updateStory db id data).2 = .ok s ∧
        s.status = StoryStatus.DRAFT ∧
        s.metadata.isEditingNewVersion = some true ∧
        s.metadata.draftVersion = some (currentVersionOr1 story.metadata + 1)) ∧
    (contentTriggers data = false →
      ∃ s, (updateStory db id data).2 = .ok s ∧
        s.status = data.status.getD StoryStatus.PUBLISHED ∧
        s.metadata = data.metadata.getD story.metadata) := by
  constructor
  · intro ht
    simp only [updateStory, h1, h2, ht]
    rw [if_pos (by simp)]
    exact ⟨_, rfl, rfl, rfl, rfl⟩
  · intro hf
    simp only [updateStory, h1, h2, hf]
    rw [if_neg (by simp)]
    refine ⟨_, rfl, ?_, rfl⟩
    cases hs : data.status <;> simp [hs, h2]

theorem updateStory_published_transition_witness :
    ∃ s, (updateStory pubDb fixId { title := some "T2" }).2 = .ok s ∧
      s.status = StoryStatus.DRAFT ∧
      s.metadata.isEditingNewVersion = some true ∧
      s.metadata.draftVersion = some (currentVersionOr1 pubStory.metadata + 1) :=
  (updateStory_published_transition pubDb fixId { title := some "T2" } pubStory
    (by rfl) rfl).1 rfl

theorem foldl_pickLatest_spec (vs : List StoryVersion) : ∀ (acc : Option StoryVersion)
    (v : StoryVersion), vs.foldl pickLatest acc = some v →
    (∀ w ∈ vs, w.versionNumber ≤ v.versionNumber) ∧
    (∀ a, acc = some a → a.versionNumber ≤ v.versionNumber) := by
  induction vs with
  | nil =>
    intro acc v h
    simp only [List.foldl_nil] at h
    refine ⟨by simp, ?_⟩
    intro a ha
    rw [ha] at h
    cases h
    exact le_refl _
  | cons w vs ih =>
    intro acc v h
    rw [List.foldl_cons] at h
    obtain ⟨h1, h2⟩ := ih (pickLatest acc w) v h
    have hw : w.versionNumber ≤ v.versionNumber := by
      cases acc with
      | none => exact h2 w rfl
      | some a =>
        by_cases hgt : w.versionNumber > a.versionNumber
        · exact h2 w (by simp [pickLatest, hgt])
        · have := h2 a (by simp [pickLatest, hgt])
          omega
    refine ⟨?_, ?_⟩
    · intro u hu
      rcases List.mem_cons.mp hu with rfl | hu
      · exact hw
      · exact h1 u hu
    · intro a ha
      cases acc with
      | none => cases ha
      | some a2 =>
        cases ha
        by_cases hgt : w.versionNumber > a.versionNumber
        · have := h2 w (by simp [pickLatest, hgt])
          omega
        · exact h2 a (by simp [pickLatest, hgt])

theorem foldl_pickLatest_isSome (vs : List StoryVersion) : ∀ a : StoryVersion,
    (vs.foldl pickLatest (some a)).isSome := by
  induction vs with
  | nil => intro a; rfl
  | cons w vs ih =>
    intro a
    rw [List.foldl_cons]
    by_cases hgt : w.versionNumber > a.versionNumber
    · simpa [pickLatest, hgt] using ih w
    · simpa [pickLatest, hgt] using ih a

theorem latestOf_append_new (vs : List StoryVersion) (nv : StoryVersion)
    (hgt : ∀ a, latestOf vs = some a → a.versionNumber < nv.versionNumber) :
    latestOf (vs ++ [nv]) = some nv := by
  unfold latestOf at hgt ⊢
  rw [List.foldl_append, List.foldl_cons, List.foldl_nil]
  cases hacc : vs.foldl pickLatest none with
  | none => rfl
  | some a =>
    have := hgt a hacc
    simp [pickLatest, this]

/-- The version number a successful `publishStory` uses:
`latestVersion ? latestVersion.versionNumber + 1 : 1`. -/
def publishVersionNumber (db : DB) (id : String) : Int :=
  match getLatestVersion db id with
  | some v => v.versionNumber + 1
  | none => 1

/-- The snapshot a successful `publishStory`/`publishNewVersion` stores. -/
def publishSnapshotOf (db : DB) (id : String) (story : Story) : Snapshot :=
  { story := story,
    nodes := (db.nodes.filter (fun n => n.storyId == id)).map (fun n =>
      { node := n, sourceChoices := sourceChoicesOf db.choices n.id }) }

/-- The story row a successful `publishStory` writes. -/
def publishedStoryOf (db : DB) (now : Nat) (id : String) (story : Story) : Story :=
  { story with
    status := StoryStatus.PUBLISHED,
    publishedAt := some now,
    metadata := { story.metadata with currentVersion := some (publishVersionNumber db id) } }

/-- The version row a successful `publishStory` appends. -/
def publishVersionRow (db : DB) (now : Nat) (id : String) (story : Story) : StoryVersion :=
  { storyId := id,
    versionNumber := publishVersionNumber db id,
    snapshot := publishSnapshotOf db id story,
    publishedAt := now,
    notes := some ("Initial publication of \"" ++ story.title ++ "\"") }

theorem publishStory_success_eq (db : DB) (now : Nat) (id : String) (story : Story)
    (h1 : getStoryById db id = .ok story)
    (h2 : (story.status == StoryStatus.PUBLISHED) = false)
    (h3 : (validateStoryStructure (db.nodes.filter (fun n => n.storyId == id))
      db.choices).isValid = true) :
    publishStory db now false id =
      ({ db with
          stories := updateStoryRow db.stories id (publishedStoryOf db now id story),
          versions := db.versions ++ [publishVersionRow db now id story] },
        .ok (publishedStoryOf db now id story)) := by
  have hval : validateStoryForPublishing db id =
      .ok { isValid := true,
            validationResult := validateStoryStructure
              (db.nodes.filter (fun n => n.storyId == id)) db.choices,
            message := none } := by
    simp [validateStoryForPublishing, h1, h3]
  have hsnap := (getStoryById_ok db id story h1).2
  rw [publishStory, h1]
  simp only [h2, Bool.false_eq_true, if_false, hval, createStorySnapshot, hsnap]
  rfl

/-- C7: `getLatestVersion` returns `none` for a story with no version rows;
a successful `publishStory` appends exactly one version row, numbered
(version number of the latest existing version, else 0) + 1, and
`getLatestVersion` run after that publish returns precisely the row the
publish created. -/
theorem getLatestVersion_publish (db db2 : DB) (now : Nat) (id id2 : String)
    (story : Story)
    (h0 : db2.versions.filter (fun v => v.storyId == id2) = [])
    (h1 : getStoryById db id = .ok story)
    (h2 : (story.status == StoryStatus.PUBLISHED) = false)
    (h3 : (validateStoryStructure (db.nodes.filter (fun n => n.storyId == id))
      db.choices).isValid = true) :
    getLatestVersion db2 id2 = none ∧
    ∃ v, (publishStory db now false id).1.versions = db.versions ++ [v] ∧
      v.storyId = id ∧
      v.versionNumber = (match getLatestVersion db id with
        | some l => l.versionNumber
        | none => 0) + 1 ∧
      getLatestVersion (publishStory db now false id).1 id = some v := by
  constructor
  · unfold getLatestVersion
    rw [h0]
    rfl
  · have hpub := publishStory_success_eq db now id story h1 h2 h3
    refine ⟨publishVersionRow db now id story, ?_, rfl, ?_, ?_⟩
    · rw [hpub]
    · cases hm : getLatestVersion db id with
      | none => simp [publishVersionRow, publishVersionNumber, hm]
      | some l => simp [publishVersionRow, publishVersionNumber, hm]
    · rw [hpub]
      show latestOf (List.filter (fun v => v.storyId == id)
        (db.versions ++ [publishVersionRow db now id story])) = _
      rw [List.filter_append]
      have hrow : List.filter (fun v => v.storyId == id)
          [publishVersionRow db now id story] = [publishVersionRow db now id story] := by
        simp [publishVersionRow]
      rw [hrow]
      apply latestOf_append_new
      intro a hacc
      have hga : getLatestVersion db id = some a := hacc
      simp only [publishVersionRow, publishVersionNumber, hga]
      omega

/-- Fixture: a DRAFT story with a valid two-node graph and no versions. -/
def draftStory : Story :=
  { id := fixId, authorId := "a1", title := "T", description := "D",
    coverImageUrl := none, genres := ["fantasy"], difficulty := Difficulty.MEDIUM,
    status := StoryStatus.DRAFT, metadata := {}, publishedAt := none }

def startNodeFix : Node :=
  { id := "A", storyId := fixId, title := "A", content := "", isEnding := false,
    metadata := { isStart := some true } }

def endNodeFix : Node :=
  { id := "B", storyId := fixId, title := "B", content := "", isEnding := true,
    metadata := {} }

def edgeFix : Choice :=
  { id := "e1", sourceNodeId := "A", targetNodeId := "B", text := "go", order := 0,
    conditions := [] }

def draftDb : DB :=
  { stories := [draftStory], nodes := [startNodeFix, endNodeFix], choices := [edgeFix],
    versions := [] }

theorem getLatestVersion_publish_witness :
    getLatestVersion draftDb fixId = none ∧
    ∃ v, (publishStory draftDb 10 false fixId).1.versions = draftDb.versions ++ [v] ∧
      v.storyId = fixId ∧
      v.versionNumber = (match getLatestVersion draftDb fixId with
        | some l => l.versionNumber
        | none => 0) + 1 ∧
      getLatestVersion (publishStory draftDb 10 false fixId).1 fixId = some v :=
  getLatestVersion_publish draftDb draftDb 10 fixId fixId draftStory rfl rfl rfl (by
    simp [validateStoryStructure, bfsAux, enqueueTargets, sourceChoicesOf,
      targetChoicesOf, isStartNode, draftDb, startNodeFix, endNodeFix, edgeFix, fixId])

/-- The operations of the publish/versioning core, as a syntax of calls so a
whole call sequence can be quantified over. -/
inductive CoreOp where
  | update (id : String) (data : UpdateStoryData)
  | publishOp (now : Nat) (txFails : Bool) (id : String)
  | publishNewOp (now : Nat) (txFails : Bool) (id : String) (notes : Option String)
  | archiveOp (id : String)
  | mkChoice (newId : String) (data : CreateChoiceData)

/-- The database state a core call leaves behind. -/
def applyOp (db : DB) : CoreOp → DB
  | .update id data => (updateStory db id data).1
  | .publishOp now txFails id => (publishStory db now txFails id).1
  | .publishNewOp now txFails id notes => (publishNewVersion db now txFails id notes).1
  | .archiveOp id => (archiveStory db id).1
  | .mkChoice newId data => (createChoice db newId data).1

/-- Run a sequence of core calls. -/
def applyOps (db : DB) : List CoreOp → DB
  | [] => db
  | op :: ops => applyOps (applyOp db op) ops

theorem find?_isSome_map_id_preserving (stories : List Story) (f : Story → Story)
    (hf : ∀ t, (f t).id = t.id) (i : String) :
    (((stories.map f).find? (fun s => s.id == i)).isSome =
      (stories.find? (fun s => s.id == i)).isSome) := by
  induction stories with
  | nil => rfl
  | cons t ts ih =>
    rw [List.map_cons]
    simp only [List.find?, hf t]
    cases h : (t.id == i) with
    | true => rfl
    | false => exact ih

theorem updateStoryRow_find_isSome (stories : List Story) (id : String) (s : Story)
    (hs : s.id = id) (i : String) :
    (((updateStoryRow stories id s).find? (fun t => t.id == i)).isSome =
      (stories.find? (fun t => t.id == i)).isSome) := by
  apply find?_isSome_map_id_preserving
  intro t
  by_cases h : (t.id == id) = true
  · rw [if_pos h, hs]
    exact (beq_iff_eq.mp h).symm
  · rw [if_neg h]

theorem getStoryById_id_eq (db : DB) (id : String) (story : Story)
    (h : getStoryById db id = .ok story) : story.id = id := by
  have := List.find?_some (getStoryById_ok db id story h).2
  simpa [beq_iff_eq] using this

theorem applyOp_preserves (db : DB) (op : CoreOp) :
    (∃ t, (applyOp db op).versions = db.versions ++ t) ∧
    (∀ i, (((applyOp db op).stories.find? (fun s => s.id == i)).isSome =
      (db.stories.find? (fun s => s.id == i)).isSome)) := by
  cases op with
  | update id data =>
    simp only [applyOp]
    unfold updateStory
    split
    · exact ⟨⟨[], by simp⟩, fun i => rfl⟩
    · rename_i story heq
      have hid := getStoryById_id_eq db id story heq
      split
      · refine ⟨⟨[], by simp⟩, fun i => ?_⟩
        refine updateStoryRow_find_isSome _ _ _ ?_ i
        exact hid
      · refine ⟨⟨[], by simp⟩, fun i => ?_⟩
        refine updateStoryRow_find_isSome _ _ _ ?_ i
        exact hid
  | publishOp now txFails id =>
    simp only [applyOp]
    unfold publishStory
    split
    · exact ⟨⟨[], by simp⟩, fun i => rfl⟩
    · rename_i story heq
      have hid := getStoryById_id_eq db id story heq
      split
      · exact ⟨⟨[], by simp⟩, fun i => rfl⟩
      · split
        · exact ⟨⟨[], by simp⟩, fun i => rfl⟩
        · split
          · exact ⟨⟨[], by simp⟩, fun i => rfl⟩
          · split
            · exact ⟨⟨[], by simp⟩, fun i => rfl⟩
            · split
              · exact ⟨⟨[], by simp⟩, fun i => rfl⟩
              · refine ⟨⟨_, rfl⟩, fun i => ?_⟩
                refine updateStoryRow_find_isSome _ _ _ ?_ i
                exact hid
  | publishNewOp now txFails id notes =>
    simp only [applyOp]
    unfold publishNewVersion
    split
    · exact ⟨⟨[], by simp⟩, fun i => rfl⟩
    · rename_i story heq
      have hid := getStoryById_id_eq db id story heq
      split
      · exact ⟨⟨[], by simp⟩, fun i => rfl⟩
      · split
        · exact ⟨⟨[], by simp⟩, fun i => rfl⟩
        · split
          · exact ⟨⟨[], by simp⟩, fun i => rfl⟩
          · split
            · exact ⟨⟨[], by simp⟩, fun i => rfl⟩
            · split
              · exact ⟨⟨[], by simp⟩, fun i => rfl⟩
              · split
                · exact ⟨⟨[], by simp⟩, fun i => rfl⟩
                · refine ⟨⟨_, rfl⟩, fun i => ?_⟩
                  refine updateStoryRow_find_isSome _ _ _ ?_ i
                  exact hid
  | archiveOp id =>
    simp only [applyOp]
    unfold archiveStory
    split
    · exact ⟨⟨[], by simp⟩, fun i => rfl⟩
    · rename_i story heq
      have hid := getStoryById_id_eq db id story heq
      refine ⟨⟨[], by simp⟩, fun i => ?_⟩
      refine updateStoryRow_find_isSome _ _ _ ?_ i
      exact hid
  | mkChoice newId data =>
    exact ⟨⟨[], by simp [applyOp, createChoice]⟩, fun i => rfl⟩

theorem getStoryVersion_applyOp (db : DB) (op : CoreOp) (id : String) (n : Int)
    (snap : Snapshot) (h : StoryService.getStoryVersion db id n = .ok snap) :
    StoryService.getStoryVersion (applyOp db op) id n = .ok snap := by
  obtain ⟨⟨t, hver⟩, hsto⟩ := applyOp_preserves db op
  unfold StoryService.getStoryVersion at h ⊢
  cases hg : getStoryById db id with
  | error e =>
    rw [hg] at h
    exact absurd h (by simp)
  | ok story =>
    rw [hg] at h
    obtain ⟨hu, hfind⟩ := getStoryById_ok db id story hg
    have hsome2 : (((applyOp db op).stories.find? (fun s => s.id == id))).isSome := by
      rw [hsto id, hfind]
      rfl
    obtain ⟨story2, hfind2⟩ := Option.isSome_iff_exists.mp hsome2
    have hg2 : getStoryById (applyOp db op) id = .ok story2 := by
      unfold getStoryById
      rw [hu, hfind2]
      rfl
    rw [hg2]
    cases hv : StoryVersionService.getStoryVersion db id n with
    | error e =>
      rw [hv] at h
      exact absurd h (by simp)
    | ok v =>
      rw [hv] at h
      unfold StoryVersionService.getStoryVersion at hv ⊢
      rw [hver, List.find?_append]
      cases hf : db.versions.find? (fun w => w.storyId == id && w.versionNumber == n) with
      | none =>
        rw [hf] at hv
        exact absurd hv (by simp)
      | some w =>
        rw [hf] at hv
        have hwv : w = v := by simpa using hv
        have hor : (some w).or
            (t.find? (fun w => w.storyId == id && w.versionNumber == n)) = some w := rfl
        rw [hor, hwv]
        exact h

/-- C8: version rows are write-once: no operation of the core (story update,
first publish, new-version publish, archive, choice creation) mutates or
deletes an existing `StoryVersion` row — each leaves the version table a
prefix-preserving append — so a `getStoryVersion` lookup that returns a
snapshot keeps returning that exact snapshot after any sequence of core
calls. -/
theorem versions_write_once (db : DB) (ops : List CoreOp) (id : String) (n : Int)
    (snap : Snapshot) (h : StoryService.getStoryVersion db id n = .ok snap) :
    StoryService.getStoryVersion (applyOps db ops) id n = .ok snap := by
  induction ops generalizing db with
  | nil => exact h
  | cons op ops ih => exact ih _ (getStoryVersion_applyOp db op id n snap h)

/-- Fixture: a version row for the published story. -/
def ver1 : StoryVersion :=
  { storyId := fixId, versionNumber := 1,
    snapshot := { story := draftStory, nodes := [] }, publishedAt := 10,
    notes := none }

def verDb : DB :=
  { stories := [pubStory], nodes := [], choices := [], versions := [ver1] }

theorem versions_write_once_witness :
    StoryService.getStoryVersion
        (applyOps verDb [CoreOp.archiveOp fixId, CoreOp.update fixId {}]) fixId 1 =
      .ok ver1.snapshot :=
  versions_write_once verDb [CoreOp.archiveOp fixId, CoreOp.update fixId {}]
    fixId 1 ver1.snapshot rfl

/-- C1: for every nodes array and choice set, the `isValid` bit returned by
`validateStoryStructure` is exactly the conjunction of `startNode` (has a
start node), `endingNodes` (has an ending node) and the emptiness of the
orphaned, unreachable and dead-end lists. -/
theorem validate_isValid_conjunction (nodes : List Node) (choices : List Choice) :
    (validateStoryStructure nodes choices).isValid =
      ((validateStoryStructure nodes choices).startNode &&
       (validateStoryStructure nodes choices).endingNodes &&
       (validateStoryStructure nodes choices).orphanedNodes.isEmpty &&
       (validateStoryStructure nodes choices).unreachableNodes.isEmpty &&
       (validateStoryStructure nodes choices).deadEnds.isEmpty) := by
  unfold validateStoryStructure
  split
  · rfl
  · simp only [isEmpty_eq_length_beq_zero]


theorem foldl_pickHighest_spec (cs : List Choice) : ∀ (acc : Option Choice) (v : Choice),
    cs.foldl pickHighest acc = some v →
    (∀ w ∈ cs, w.order ≤ v.order) ∧ (∀ a, acc = some a → a.order ≤ v.order) ∧
    (v ∈ cs ∨ acc = some v) := by
  induction cs with
  | nil =>
    intro acc v h
    simp only [List.foldl_nil] at h
    refine ⟨by simp, ?_, Or.inr h⟩
    intro a ha
    rw [ha] at h
    cases h
    exact le_refl _
  | cons w cs ih =>
    intro acc v h
    rw [List.foldl_cons] at h
    obtain ⟨h1, h2, h3⟩ := ih (pickHighest acc w) v h
    have hw : w.order ≤ v.order := by
      cases acc with
      | none => exact h2 w rfl
      | some a =>
        by_cases hgt : w.order > a.order
        · exact h2 w (by simp [pickHighest, hgt])
        · have := h2 a (by simp [pickHighest, hgt])
          omega
    refine ⟨?_, ?_, ?_⟩
    · intro u hu
      rcases List.mem_cons.mp hu with rfl | hu
      · exact hw
      · exact h1 u hu
    · intro a ha
      cases acc with
      | none => cases ha
      | some a2 =>
        cases ha
        by_cases hgt : w.order > a.order
        · have := h2 w (by simp [pickHighest, hgt])
          omega
        · exact h2 a (by simp [pickHighest, hgt])
    · rcases h3 with hv | hv
      · exact Or.inl (List.mem_cons_of_mem _ hv)
      · cases acc with
        | none =>
          have : w = v := by simpa [pickHighest] using hv
          exact Or.inl (this ▸ List.mem_cons_self _ _)
        | some a =>
          by_cases hgt : w.order > a.order
          · have : w = v := by simpa [pickHighest, hgt] using hv
            exact Or.inl (this ▸ List.mem_cons_self _ _)
          · have : a = v := by simpa [pickHighest, hgt] using hv
            exact Or.inr (by rw [this])

theorem foldl_pickHighest_isSome (cs : List Choice) : ∀ a : Choice,
    (cs.foldl pickHighest (some a)).isSome := by
  induction cs with
  | nil => intro a; rfl
  | cons w cs ih =>
    intro a
    rw [List.foldl_cons]
    by_cases hgt : w.order > a.order
    · simpa [pickHighest, hgt] using ih w
    · simpa [pickHighest, hgt] using ih a

/-- The row `createChoice` stores, given the order value it computed. -/
def createdChoice (newId : String) (data : CreateChoiceData) (ord : Int) : Choice :=
  { id := newId, sourceNodeId := data.sourceNodeId, targetNodeId := data.targetNodeId,
    text := data.text, order := ord, conditions := data.conditions.getD [] }

/-- C9: a `createChoice` call that omits `order` stores the choice with order
equal to the maximum `order` among the existing choices of the same source
node, plus one (stated for a source node that already has choices, `m` being
their maximum order). -/
theorem createChoice_default_order (db : DB) (newId : String)
    (data : CreateChoiceData) (m : Int)
    (h0 : data.order = none)
    (hm : m ∈ (db.choices.filter
      (fun c => c.sourceNodeId == data.sourceNodeId)).map Choice.order)
    (hmax : ∀ x ∈ (db.choices.filter
      (fun c => c.sourceNodeId == data.sourceNodeId)).map Choice.order, x ≤ m) :
    ∃ c, (createChoice db newId data).2 = .ok c ∧ c.order = m + 1 := by
  cases hh : highestOrderChoiceOf db.choices data.sourceNodeId with
  | none =>
    exfalso
    unfold highestOrderChoiceOf at hh
    obtain ⟨w, hw, _⟩ := List.mem_map.mp hm
    cases hc : db.choices.filter (fun c => c.sourceNodeId == data.sourceNodeId) with
    | nil => rw [hc] at hw; cases hw
    | cons c0 cs =>
      rw [hc, List.foldl_cons] at hh
      have := foldl_pickHighest_isSome cs c0
      rw [show pickHighest none c0 = some c0 from rfl] at hh
      rw [hh] at this
      cases this
  | some h =>
    obtain ⟨hle, _, hmem⟩ := foldl_pickHighest_spec
      (db.choices.filter (fun c => c.sourceNodeId == data.sourceNodeId)) none h hh
    have h1 : h.order ≤ m := by
      rcases hmem with hmem | habs
      · exact hmax h.order (List.mem_map.mpr ⟨h, hmem, rfl⟩)
      · cases habs
    have h2 : m ≤ h.order := by
      obtain ⟨w, hw, hwo⟩ := List.mem_map.mp hm
      rw [← hwo]
      exact hle w hw
    have heq : h.order = m := le_antisymm h1 h2
    refine ⟨createdChoice newId data (h.order + 1), ?_, ?_⟩
    · simp only [createChoice, h0, hh]
      rfl
    · simp only [createdChoice, heq]

/-- Fixture: one existing choice of order 5 out of node `A`. -/
def choice5 : Choice :=
  { id := "c5", sourceNodeId := "A", targetNodeId := "B", text := "t", order := 5,
    conditions := [] }

def choiceDb : DB := { stories := [], nodes := [], choices := [choice5], versions := [] }

theorem createChoice_default_order_witness :
    ∃ c, (createChoice choiceDb "c6"
        { sourceNodeId := "A", targetNodeId := "B", text := "t" }).2 = .ok c ∧
      c.order = 5 + 1 :=
  createChoice_default_order choiceDb "c6"
    { sourceNodeId := "A", targetNodeId := "B", text := "t" } 5 rfl
    (by simp [choiceDb, choice5]) (by simp [choiceDb, choice5])

/-- C10: a `createChoice` call that supplies `order` as `0` (JS-falsy) does
not store the supplied `0`: the call behaves exactly as if `order` had been
omitted, storing the computed default (highest existing order of the source
node plus one, or `0` when the source node has no choices yet). -/
theorem createChoice_zero_order (db : DB) (newId : String) (data : CreateChoiceData)
    (h0 : data.order = some 0) :
    createChoice db newId data = createChoice db newId { data with order := none } ∧
    ∃ c, (createChoice db newId data).2 = .ok c ∧
      c.order = (match highestOrderChoiceOf db.choices data.sourceNodeId with
        | some h => h.order + 1
        | none => 0) := by
  constructor
  · simp [createChoice, h0]
  · simp only [createChoice, h0]
    refine ⟨_, rfl, ?_⟩
    cases hh : highestOrderChoiceOf db.choices data.sourceNodeId <;> simp [hh]

theorem createChoice_zero_order_witness :
    createChoice choiceDb "c7"
        { sourceNodeId := "A", targetNodeId := "B", text := "t", order := some 0 } =
      createChoice choiceDb "c7"
        { sourceNodeId := "A", targetNodeId := "B", text := "t", order := none } ∧
    ∃ c, (createChoice choiceDb "c7"
        { sourceNodeId := "A", targetNodeId := "B", text := "t", order := some 0 }).2 =
        .ok c ∧
      c.order = (match highestOrderChoiceOf choiceDb.choices "A" with
        | some h => h.order + 1
        | none => 0) :=
  createChoice_zero_order choiceDb "c7"
    { sourceNodeId := "A", targetNodeId := "B", text := "t", order := some 0 } rfl
